import Mathlib

/-!
# Verification of the ChainTech account-manager client (`src/app.js`)

Shallow embedding of the account-management logic of `src/app.js`:
storage helpers (`readUsers`, `writeUsers`, `readSession`), the pure
validation helpers (`validateEmail`, `safeTrim`), and the three form
handlers (`LoginPage.handleSubmit`, `RegisterPage.handleSubmit`,
`AccountPage.handleSave`).

JavaScript strings are modelled as `List Char` (`JStr`).  `String.prototype.trim`
is modelled over the ASCII whitespace characters (space, tab, LF, CR, VT, FF);
`String.prototype.toLowerCase` is modelled by `Char.toLower`, which lowercases
the basic-latin letters.  (The Unicode-only differences of the real JS
functions are irrelevant to the properties considered here.)  String
`.length` is modelled by list length (code points rather than UTF-16 units).

The `localStorage` values behind the `app.users` / `app.session` keys are
modelled as `Option JStr` (`none` = absent key), and `JSON.parse` /
`JSON.stringify` are modelled by an executable JSON parser and printer over
an explicit `Json` type (JSON numbers are modelled as integers; fractional
literals, irrelevant to every record this app writes, are treated as
unparsable).
-/

/-- A JavaScript string, modelled as its list of characters. -/
abbrev JStr := List Char

/-- Embed a Lean string literal as a `JStr`. -/
def js (s : String) : JStr := s.toList

/-- The whitespace characters removed by `String.prototype.trim`
(ASCII part: TAB, LF, VT, FF, CR, SPACE). -/
def wsChar (c : Char) : Bool :=
  c.toNat == 32 || c.toNat == 9 || c.toNat == 10 ||
  c.toNat == 13 || c.toNat == 11 || c.toNat == 12

/-- Remove leading whitespace. -/
def trimLeft (s : JStr) : JStr := s.dropWhile wsChar

/-- Remove trailing whitespace. -/
def trimRight (s : JStr) : JStr := ((s.reverse).dropWhile wsChar).reverse

/-- `String.prototype.trim`: remove leading and trailing whitespace. -/
def jsTrim (s : JStr) : JStr := trimRight (trimLeft s)

/-- `String.prototype.toLowerCase` (basic-latin letters). -/
def toLowerStr (s : JStr) : JStr := s.map Char.toLower

/-- `safeTrim` from `src/app.js`: `(value || "").toString().trim()`.
All call sites pass the (string-valued) controlled form fields, so the
`|| ""` fallback never fires and the function reduces to `trim`. -/
def safeTrim (s : JStr) : JStr := jsTrim s

/-- `validateEmail` from `src/app.js`:
`typeof email === "string" && email.includes("@") && email.includes(".")`.
The argument is a string by construction of the embedding. -/
def validateEmail (email : JStr) : Bool :=
  email.contains '@' && email.contains '.'

/-- A stored user record (`{ name, email, password }`). -/
structure UserRecord where
  name : JStr
  email : JStr
  password : JStr
deriving DecidableEq, Repr

/-- The session object (`{ email }`) stored under `app.session`. -/
structure Session where
  email : JStr
deriving DecidableEq, Repr

/-- The record-level application state: parsed user list plus session. -/
structure AppState where
  users : List UserRecord
  session : Option Session
deriving DecidableEq, Repr

/-- Outcome of a form submission: success value, or the error message shown
via `setError`. -/
inductive OpResult (α : Type) where
  | ok (val : α)
  | err (msg : JStr)
deriving DecidableEq, Repr

/-- `Array.prototype.findIndex`, with `-1` rendered as `none`. -/
def findIndex (p : α → Bool) : List α → Option Nat
  | [] => none
  | a :: l => if p a then some 0 else (findIndex p l).map (· + 1)

/-- `LoginPage.handleSubmit` (src/app.js lines 121-149), record level:
normalizes the credentials, runs the two pre-checks, then looks up a user
with `users.find(u => u.email === eMail && u.password === pass)`. -/
def login (users : List UserRecord) (email password : JStr) : OpResult UserRecord :=
  let eMail := toLowerStr (safeTrim email)
  let pass := safeTrim password
  if !validateEmail eMail then .err (js "Please enter a valid email.")
  else if pass.length < 4 then .err (js "Password must be at least 4 characters.")
  else
    match users.find? (fun u => u.email == eMail && u.password == pass) with
    | none => .err (js "Invalid email or password.")
    | some u => .ok u

/-- The state effect of `LoginPage.handleSubmit`: on success it writes
`{ email: user.email }` as the session (`writeSession` + `onLogin`); on
failure it only sets the error message and leaves all state alone. -/
def loginStep (st : AppState) (email password : JStr) : AppState × OpResult UserRecord :=
  match login st.users email password with
  | .err m => (st, .err m)
  | .ok u => ({ st with session := some ⟨u.email⟩ }, .ok u)

/-- `RegisterPage.handleSubmit` (src/app.js lines 197-231), record level:
the four field validations in source order, then the duplicate-email check
`users.some(u => u.email === eMail)`, then append of the new record. -/
def register (users : List UserRecord) (name email password confirm : JStr) :
    OpResult (List UserRecord) :=
  let fullName := safeTrim name
  let eMail := toLowerStr (safeTrim email)
  let pass := safeTrim password
  let conf := safeTrim confirm
  if fullName.length < 2 then .err (js "Name must be at least 2 characters.")
  else if !validateEmail eMail then .err (js "Please enter a valid email.")
  else if pass.length < 4 then .err (js "Password must be at least 4 characters.")
  else if pass ≠ conf then .err (js "Passwords do not match.")
  else if users.any (fun u => u.email == eMail) then
    .err (js "An account with this email already exists.")
  else .ok (users ++ [⟨fullName, eMail, pass⟩])

/-- The state effect of `RegisterPage.handleSubmit`: on success it writes the
extended user list (`writeUsers`) and sets the success message; it never
touches the session (the page has no access to it). -/
def registerStep (st : AppState) (name email password confirm : JStr) :
    AppState × OpResult JStr :=
  match register st.users name email password confirm with
  | .err m => (st, .err m)
  | .ok us => ({ st with users := us }, .ok (js "Registration successful. You can now log in."))

/-- `AccountPage.handleSave` (src/app.js lines 321-344), record level:
validates the trimmed name and password, finds the record by the session's
email (`users.findIndex(u => u.email === session.email)`), and overwrites
that record's `name` and `password` fields in place.
(`findIndex` returning `some idx` guarantees `idx < users.length`, so the
`getD` default is never used.) -/
def updateProfile (users : List UserRecord) (sessionEmail name password : JStr) :
    OpResult (List UserRecord) :=
  let fullName := safeTrim name
  let pass := safeTrim password
  if fullName.length < 2 then .err (js "Name must be at least 2 characters.")
  else if pass.length < 4 then .err (js "Password must be at least 4 characters.")
  else
    match findIndex (fun u => u.email == sessionEmail) users with
    | none => .err (js "User not found.")
    | some idx =>
        .ok (users.set idx
          { users.getD idx ⟨[], [], []⟩ with name := fullName, password := pass })

/-- The state effect of `AccountPage.handleSave`: on success it writes the
updated user list (`writeUsers`) and sets the success message; the session
is never touched. -/
def updateStep (st : AppState) (sessionEmail name password : JStr) :
    AppState × OpResult JStr :=
  match updateProfile st.users sessionEmail name password with
  | .err m => (st, .err m)
  | .ok us => ({ st with users := us }, .ok (js "Account updated."))

/-! ## Normalization lemmas for `jsTrim` and `toLowerStr` -/

theorem charToNat_ofNat (n : Nat) (h : n < 55296) : (Char.ofNat n).toNat = n := by
  have hv : n.isValidChar := Or.inl h
  simp [Char.ofNat, hv, Char.ofNatAux, Char.toNat, UInt32.toNat]

theorem toLower_toNat_of_upper {c : Char} (h : 65 ≤ c.toNat ∧ c.toNat ≤ 90) :
    (Char.toLower c).toNat = c.toNat + 32 := by
  have hlt : c.toNat + 32 < 55296 := by omega
  rw [show Char.toLower c = Char.ofNat (c.toNat + 32) from by simp [Char.toLower, h]]
  exact charToNat_ofNat _ hlt

theorem toLower_eq_self_of_not_upper {c : Char} (h : ¬(65 ≤ c.toNat ∧ c.toNat ≤ 90)) :
    Char.toLower c = c := by
  simp [Char.toLower, h]

theorem toLower_idem (c : Char) : Char.toLower (Char.toLower c) = Char.toLower c := by
  by_cases h : 65 ≤ c.toNat ∧ c.toNat ≤ 90
  · have h1 := toLower_toNat_of_upper h
    exact toLower_eq_self_of_not_upper (by omega)
  · simp only [toLower_eq_self_of_not_upper h]

theorem wsChar_iff {c : Char} : wsChar c = true ↔
    (c.toNat = 32 ∨ c.toNat = 9 ∨ c.toNat = 10 ∨ c.toNat = 13 ∨ c.toNat = 11 ∨ c.toNat = 12) := by
  simp [wsChar, Bool.or_eq_true, beq_iff_eq, or_assoc]

theorem wsChar_toLower (c : Char) : wsChar (Char.toLower c) = wsChar c := by
  by_cases h : 65 ≤ c.toNat ∧ c.toNat ≤ 90
  · have h1 := toLower_toNat_of_upper h
    have h2 : wsChar (Char.toLower c) = false := by
      rw [Bool.eq_false_iff]
      intro hc
      rw [wsChar_iff] at hc
      omega
    have h3 : wsChar c = false := by
      rw [Bool.eq_false_iff]
      intro hc
      rw [wsChar_iff] at hc
      omega
    rw [h2, h3]
  · simp only [toLower_eq_self_of_not_upper h]

theorem dropWhile_idem (p : α → Bool) (l : List α) :
    (l.dropWhile p).dropWhile p = l.dropWhile p := by
  induction l with
  | nil => rfl
  | cons a t ih => by_cases h : p a <;> simp [List.dropWhile_cons, h, ih]

theorem trimLeft_idem (s : JStr) : trimLeft (trimLeft s) = trimLeft s :=
  dropWhile_idem wsChar s

theorem trimRight_idem (s : JStr) : trimRight (trimRight s) = trimRight s := by
  simp [trimRight, dropWhile_idem]

theorem head_not_ws_of_trimLeft_fixed {a : Char} {t : JStr}
    (h : trimLeft (a :: t) = a :: t) : wsChar a = false := by
  by_cases hw : wsChar a
  · exfalso
    simp only [trimLeft, List.dropWhile_cons_of_pos hw] at h
    have h1 : (t.dropWhile wsChar).length ≤ t.length :=
      (List.dropWhile_sublist wsChar).length_le
    have h2 := congrArg List.length h
    simp only [List.length_cons] at h2
    omega
  · simpa using hw

theorem trimLeft_trimRight {s : JStr} (h : trimLeft s = s) :
    trimLeft (trimRight s) = trimRight s := by
  cases s with
  | nil => rfl
  | cons a t =>
    have ha : wsChar a = false := head_not_ws_of_trimLeft_fixed h
    have hsingle : List.dropWhile wsChar [a] = [a] := by
      simp [List.dropWhile_cons, ha]
    unfold trimRight
    rw [List.reverse_cons, List.dropWhile_append, hsingle]
    split
    · simp [trimLeft, List.dropWhile_cons, ha]
    · simp [trimLeft, List.reverse_append, List.dropWhile_cons, ha]

theorem jsTrim_idem (s : JStr) : jsTrim (jsTrim s) = jsTrim s := by
  unfold jsTrim
  rw [trimLeft_trimRight (trimLeft_idem s), trimRight_idem]

theorem wsChar_comp_toLower : (fun c => wsChar (Char.toLower c)) = wsChar := by
  funext c
  exact wsChar_toLower c

theorem trimLeft_toLower (s : JStr) : trimLeft (toLowerStr s) = toLowerStr (trimLeft s) := by
  simp only [trimLeft, toLowerStr, List.dropWhile_map, Function.comp_def, wsChar_comp_toLower]

theorem trimRight_toLower (s : JStr) : trimRight (toLowerStr s) = toLowerStr (trimRight s) := by
  simp only [trimRight, toLowerStr, ← List.map_reverse, List.dropWhile_map,
    Function.comp_def, wsChar_comp_toLower]

theorem jsTrim_toLower (s : JStr) : jsTrim (toLowerStr s) = toLowerStr (jsTrim s) := by
  unfold jsTrim
  rw [trimLeft_toLower, trimRight_toLower]

theorem toLowerStr_idem (s : JStr) : toLowerStr (toLowerStr s) = toLowerStr s := by
  simp [toLowerStr, List.map_map, Function.comp_def, toLower_idem]

/-- The normalized email `toLowerStr (jsTrim e)` is a fixed point of
normalization. -/
theorem emailNorm_fixed (e : JStr) :
    toLowerStr (jsTrim (toLowerStr (jsTrim e))) = toLowerStr (jsTrim e) := by
  rw [jsTrim_toLower, jsTrim_idem, toLowerStr_idem]

/-! ## Inversion of a successful registration -/

/-- A `register` call succeeds exactly when all five rules pass, and then the
result is the input list with the one normalized record appended. -/
theorem register_ok_iff {users : List UserRecord} {n e p c : JStr} {us' : List UserRecord} :
    register users n e p c = .ok us' ↔
      2 ≤ (safeTrim n).length ∧
      validateEmail (toLowerStr (safeTrim e)) = true ∧
      4 ≤ (safeTrim p).length ∧
      safeTrim p = safeTrim c ∧
      (∀ u ∈ users, ¬u.email = toLowerStr (safeTrim e)) ∧
      us' = users ++ [⟨safeTrim n, toLowerStr (safeTrim e), safeTrim p⟩] := by
  unfold register
  dsimp only
  split_ifs with h1 h2 h3 h4 h5
  · refine iff_of_false (by simp) ?_
    rintro ⟨ha, -⟩
    omega
  · refine iff_of_false (by simp) ?_
    rintro ⟨-, hb, -⟩
    simp [hb] at h2
  · refine iff_of_false (by simp) ?_
    rintro ⟨-, -, hc, -⟩
    omega
  · refine iff_of_false (by simp) ?_
    rintro ⟨-, -, -, hd, -⟩
    exact h4 hd
  · refine iff_of_false (by simp) ?_
    rintro ⟨-, -, -, -, hu, -⟩
    rw [List.any_eq_true] at h5
    obtain ⟨u, hm, hb⟩ := h5
    exact hu u hm (by simpa using hb)
  · rw [Bool.not_eq_true, List.any_eq_false] at h5
    simp only [OpResult.ok.injEq]
    constructor
    · intro h
      refine ⟨by omega, ?_, by omega, by simpa using h4, ?_, h.symm⟩
      · simpa using h2
      · intro u hm
        simpa using h5 u hm
    · intro h
      exact h.2.2.2.2.2.symm

/-! ## Claims C1-C3 -/

/-- C1: after a successful `Register(name, email, password, confirm)`, calling
`Login` with any email that normalizes (trim + lowercase) to the stored email
— in particular any whitespace-padded or case-varied form of it — and any
password that trims to the stored password succeeds: it finds the new record
and sets the session to `{ email := stored lowercased email }`. -/
theorem register_then_login (users us' : List UserRecord) (n e p c : JStr)
    (hreg : register users n e p c = .ok us')
    (e' p' : JStr) (he : toLowerStr (safeTrim e') = toLowerStr (safeTrim e))
    (hp : safeTrim p' = safeTrim p) (s₀ : Option Session) :
    loginStep ⟨us', s₀⟩ e' p' =
      (⟨us', some ⟨toLowerStr (safeTrim e)⟩⟩,
       .ok ⟨safeTrim n, toLowerStr (safeTrim e), safeTrim p⟩) := by
  obtain ⟨-, hv, hlen, -, hfresh, hus⟩ := register_ok_iff.mp hreg
  have hlogin : login us' e' p' =
      .ok ⟨safeTrim n, toLowerStr (safeTrim e), safeTrim p⟩ := by
    unfold login
    dsimp only
    rw [he, hp, if_neg (by simp [hv]), if_neg (by omega), hus, List.find?_append]
    have hnone : users.find? (fun u =>
        u.email == toLowerStr (safeTrim e) && u.password == safeTrim p) = none := by
      rw [List.find?_eq_none]
      intro u hm
      simp [hfresh u hm]
    rw [hnone]
    simp
  unfold loginStep
  rw [hlogin]

/-- C1 witness: the concrete scenario of the claim.  Registering Jane Doe on
an empty store yields exactly the store of the scenario, and
`Login("JANE@X.COM", " abcd ")` then succeeds and sets the session to
`{email: "jane@x.com"}`. -/
theorem register_then_login_witness :
    loginStep ⟨[⟨js "Jane Doe", js "jane@x.com", js "abcd"⟩], none⟩
        (js "JANE@X.COM") (js " abcd ") =
      (⟨[⟨js "Jane Doe", js "jane@x.com", js "abcd"⟩], some ⟨js "jane@x.com"⟩⟩,
       .ok ⟨js "Jane Doe", js "jane@x.com", js "abcd"⟩) := by
  have h := register_then_login [] [⟨js "Jane Doe", js "jane@x.com", js "abcd"⟩]
    (js "Jane Doe") (js "jane@x.com") (js "abcd") (js "abcd") (by decide)
    (js "JANE@X.COM") (js " abcd ") (by decide) (by decide) none
  exact h.trans (by decide)

/-- C2 counterexample: a login attempt that matches no stored record need not
surface "Invalid email or password": an attempt rejected by the email-shape
pre-check surfaces "Please enter a valid email." instead; and even past the
pre-checks the surfaced message is "Invalid email or password." (with a
trailing period), not the claimed "Invalid email or password". -/
theorem login_no_match_counterexample :
    (login [] (js "nobody") (js "pass") = .err (js "Please enter a valid email.") ∧
      js "Please enter a valid email." ≠ js "Invalid email or password") ∧
    (login [] (js "a@b.c") (js "aaaa") = .err (js "Invalid email or password.") ∧
      js "Invalid email or password." ≠ js "Invalid email or password") := by
  decide

/-- C2 (amended): for every login attempt that passes the email-shape and
password-length pre-checks and whose normalized email and trimmed password
match no stored record, the state (users and session) is left unchanged and
the message "Invalid email or password." is surfaced. -/
theorem login_no_match (st : AppState) (e p : JStr)
    (hv : validateEmail (toLowerStr (safeTrim e)) = true)
    (hl : 4 ≤ (safeTrim p).length)
    (hm : st.users.find? (fun u =>
      u.email == toLowerStr (safeTrim e) && u.password == safeTrim p) = none) :
    loginStep st e p = (st, .err (js "Invalid email or password.")) := by
  unfold loginStep login
  dsimp only
  rw [if_neg (by simp [hv]), if_neg (by omega), hm]

/-- C2 witness: concrete instance of the amended claim. -/
theorem login_no_match_witness :
    loginStep ⟨[], none⟩ (js "a@b.c") (js "aaaa") =
      (⟨[], none⟩, .err (js "Invalid email or password.")) :=
  login_no_match ⟨[], none⟩ (js "a@b.c") (js "aaaa") (by decide) (by decide) (by decide)

/-- C3 counterexample: a second `Register` call with the same email (up to
case and padding) does not necessarily fail with the duplicate-email message:
if its name field is too short it fails with the name message instead. -/
theorem register_duplicate_counterexample :
    register [] (js "Jane Doe") (js "jane@x.com") (js "abcd") (js "abcd") =
      .ok [⟨js "Jane Doe", js "jane@x.com", js "abcd"⟩] ∧
    register [⟨js "Jane Doe", js "jane@x.com", js "abcd"⟩]
        (js "X") (js " JANE@X.COM ") (js "abcd") (js "abcd") =
      .err (js "Name must be at least 2 characters.") ∧
    js "Name must be at least 2 characters." ≠
      js "An account with this email already exists." := by
  decide

/-- C3 (amended): after a successful registration, a second `Register` call
whose email has the same normalized form and whose name, password, and
confirmation fields pass their checks fails with the duplicate-email
message, leaves the whole state unchanged, and the store still contains
exactly one record with that lowercased email. -/
theorem register_duplicate (users us₁ : List UserRecord) (n₁ e₁ p₁ c₁ n₂ e₂ p₂ c₂ : JStr)
    (h1 : register users n₁ e₁ p₁ c₁ = .ok us₁)
    (he : toLowerStr (safeTrim e₂) = toLowerStr (safeTrim e₁))
    (hn : 2 ≤ (safeTrim n₂).length)
    (hp : 4 ≤ (safeTrim p₂).length)
    (hc : safeTrim p₂ = safeTrim c₂) (s : Option Session) :
    registerStep ⟨us₁, s⟩ n₂ e₂ p₂ c₂ =
      (⟨us₁, s⟩, .err (js "An account with this email already exists.")) ∧
    (us₁.filter (fun u => u.email == toLowerStr (safeTrim e₁))).length = 1 := by
  obtain ⟨-, hv, -, -, hfresh, hus⟩ := register_ok_iff.mp h1
  have hdup : register us₁ n₂ e₂ p₂ c₂ =
      .err (js "An account with this email already exists.") := by
    unfold register
    dsimp only
    rw [if_neg (by omega)]
    rw [if_neg (show ¬(!validateEmail (toLowerStr (safeTrim e₂))) = true by
      rw [he]; simp [hv])]
    rw [if_neg (by omega)]
    rw [if_neg (show ¬safeTrim p₂ ≠ safeTrim c₂ by simp [hc])]
    rw [if_pos (show (us₁.any fun u => u.email == toLowerStr (safeTrim e₂)) = true by
      rw [List.any_eq_true]
      refine ⟨⟨safeTrim n₁, toLowerStr (safeTrim e₁), safeTrim p₁⟩, ?_, ?_⟩
      · rw [hus]; simp
      · simp [he])]
  constructor
  · unfold registerStep
    rw [hdup]
  · rw [hus, List.filter_append]
    have husers : users.filter (fun u => u.email == toLowerStr (safeTrim e₁)) = [] := by
      rw [List.filter_eq_nil_iff]
      intro u hm
      simp [hfresh u hm]
    rw [husers]
    simp

/-- C3 witness: concrete instance of the amended claim. -/
theorem register_duplicate_witness :
    registerStep ⟨[⟨js "Jane Doe", js "jane@x.com", js "abcd"⟩], none⟩
        (js "Bob") (js " JANE@X.COM ") (js "efgh") (js "efgh") =
      (⟨[⟨js "Jane Doe", js "jane@x.com", js "abcd"⟩], none⟩,
       .err (js "An account with this email already exists.")) ∧
    (([⟨js "Jane Doe", js "jane@x.com", js "abcd"⟩] : List UserRecord).filter
        (fun u => u.email == toLowerStr (safeTrim (js "jane@x.com")))).length = 1 :=
  register_duplicate [] [⟨js "Jane Doe", js "jane@x.com", js "abcd"⟩]
    (js "Jane Doe") (js "jane@x.com") (js "abcd") (js "abcd")
    (js "Bob") (js " JANE@X.COM ") (js "efgh") (js "efgh")
    (by decide) (by decide) (by decide) (by decide) (by decide) none

/-! ## `findIndex` lemmas -/

theorem findIndex_eq_none_iff {p : α → Bool} {l : List α} :
    findIndex p l = none ↔ ∀ a ∈ l, ¬ p a := by
  induction l with
  | nil => simp [findIndex]
  | cons a t ih => by_cases h : p a <;> simp [findIndex, h, ih]

theorem findIndex_some_lt {p : α → Bool} {l : List α} {i : Nat}
    (h : findIndex p l = some i) : i < l.length := by
  induction l generalizing i with
  | nil => simp [findIndex] at h
  | cons a t ih =>
    by_cases hp : p a
    · simp only [findIndex, if_pos hp, Option.some.injEq] at h
      simp [← h]
    · simp only [findIndex, if_neg hp, Option.map_eq_some'] at h
      obtain ⟨j, hj, rfl⟩ := h
      have := ih hj
      simp
      omega

theorem findIndex_some_getD {p : α → Bool} {l : List α} {i : Nat} (d : α)
    (h : findIndex p l = some i) : p (l.getD i d) = true := by
  induction l generalizing i with
  | nil => simp [findIndex] at h
  | cons a t ih =>
    by_cases hp : p a
    · simp only [findIndex, if_pos hp, Option.some.injEq] at h
      simp [← h, hp]
    · simp only [findIndex, if_neg hp, Option.map_eq_some'] at h
      obtain ⟨j, hj, rfl⟩ := h
      simpa using ih hj

/-! ## Claims C4 and C5 -/

/-- C4: if the trimmed name is shorter than 2 characters, or the trimmed
password shorter than 4, or the session email matches no stored record, then
`AccountPage.handleSave` surfaces the corresponding message (the first
failing check, in source order) and the whole state — in particular the
stored user list — is unchanged (`writeUsers` is never reached). -/
theorem updateProfile_error (st : AppState) (sEmail n p : JStr)
    (h : (safeTrim n).length < 2 ∨ (safeTrim p).length < 4 ∨
      findIndex (fun u => u.email == sEmail) st.users = none) :
    updateStep st sEmail n p =
      (st, .err (if (safeTrim n).length < 2 then js "Name must be at least 2 characters."
        else if (safeTrim p).length < 4 then js "Password must be at least 4 characters."
        else js "User not found.")) := by
  unfold updateStep updateProfile
  dsimp only
  by_cases h1 : (safeTrim n).length < 2
  · rw [if_pos h1, if_pos h1]
  · rw [if_neg h1, if_neg h1]
    by_cases h2 : (safeTrim p).length < 4
    · rw [if_pos h2, if_pos h2]
    · rw [if_neg h2, if_neg h2]
      have h3 : findIndex (fun u => u.email == sEmail) st.users = none := by
        rcases h with h | h | h
        · exact absurd h h1
        · exact absurd h h2
        · exact h
      rw [h3]

/-- C4 witness: concrete instance (name too short). -/
theorem updateProfile_error_witness :
    updateStep ⟨[⟨js "Jane Doe", js "jane@x.com", js "abcd"⟩], none⟩ (js "jane@x.com")
        (js " J ") (js "abcd") =
      (⟨[⟨js "Jane Doe", js "jane@x.com", js "abcd"⟩], none⟩,
       .err (js "Name must be at least 2 characters.")) := by
  have h := updateProfile_error ⟨[⟨js "Jane Doe", js "jane@x.com", js "abcd"⟩], none⟩
    (js "jane@x.com") (js " J ") (js "abcd") (by decide)
  exact h.trans (by decide)

/-- C5: when the store contains a record whose email equals the session's
email (the one at the index `findIndex` returns) and the new name and
password pass validation, `AccountPage.handleSave` reports success and
replaces exactly that record's `name` and `password` by their trimmed
values: its email, every other record, the list length (hence order), and
the session are all unchanged. -/
theorem updateProfile_success (st : AppState) (sEmail n p : JStr) (idx : Nat)
    (hfind : findIndex (fun u => u.email == sEmail) st.users = some idx)
    (hn : 2 ≤ (safeTrim n).length) (hp : 4 ≤ (safeTrim p).length) :
    ∃ us', updateStep st sEmail n p = (⟨us', st.session⟩, .ok (js "Account updated.")) ∧
      us'.length = st.users.length ∧
      (∀ d, (us'.getD idx d).name = safeTrim n ∧
            (us'.getD idx d).password = safeTrim p ∧
            (us'.getD idx d).email = (st.users.getD idx d).email) ∧
      (∀ j, j ≠ idx → ∀ d, us'.getD j d = st.users.getD j d) := by
  have hlt := findIndex_some_lt hfind
  refine ⟨st.users.set idx { st.users.getD idx ⟨[], [], []⟩ with
    name := safeTrim n, password := safeTrim p }, ?_, ?_, ?_, ?_⟩
  · unfold updateStep updateProfile
    dsimp only
    rw [if_neg (by omega), if_neg (by omega), hfind]
  · simp
  · intro d
    have hset : (st.users.set idx { st.users.getD idx ⟨[], [], []⟩ with
        name := safeTrim n, password := safeTrim p }).getD idx d =
        { st.users.getD idx ⟨[], [], []⟩ with
          name := safeTrim n, password := safeTrim p } := by
      simp [List.getD_eq_getElem?_getD, List.getElem?_set_self hlt]
    rw [hset]
    refine ⟨rfl, rfl, ?_⟩
    simp [List.getD_eq_getElem?_getD, List.getElem?_eq_getElem hlt]
  · intro j hj d
    simp [List.getD_eq_getElem?_getD, List.getElem?_set_ne (Ne.symm hj)]

/-- C5 witness: concrete instance. -/
theorem updateProfile_success_witness :
    ∃ us', updateStep ⟨[⟨js "Jane Doe", js "jane@x.com", js "abcd"⟩], some ⟨js "jane@x.com"⟩⟩
        (js "jane@x.com") (js "Janet Doe") (js "wxyz") =
      (⟨us', some ⟨js "jane@x.com"⟩⟩, .ok (js "Account updated.")) ∧
      us'.length = 1 ∧
      (∀ d, (us'.getD 0 d).name = safeTrim (js "Janet Doe") ∧
            (us'.getD 0 d).password = safeTrim (js "wxyz") ∧
            (us'.getD 0 d).email =
              (([⟨js "Jane Doe", js "jane@x.com", js "abcd"⟩] : List UserRecord).getD 0 d).email) ∧
      (∀ j, j ≠ 0 → ∀ d, us'.getD j d =
        ([⟨js "Jane Doe", js "jane@x.com", js "abcd"⟩] : List UserRecord).getD j d) :=
  updateProfile_success ⟨[⟨js "Jane Doe", js "jane@x.com", js "abcd"⟩], some ⟨js "jane@x.com"⟩⟩
    (js "jane@x.com") (js "Janet Doe") (js "wxyz") 0 (by decide) (by decide) (by decide)

/-! ## Claims C7, C8, C10 -/

/-- C7: `validateEmail` returns true exactly when the string contains both
the character `@` and the character `.`, at any positions; it returns false
whenever either is missing. -/
theorem validateEmail_iff (s : JStr) :
    validateEmail s = true ↔ ('@' ∈ s ∧ '.' ∈ s) := by
  simp [validateEmail, List.contains]

/-- C8: `RegisterPage.handleSubmit` checks its rules in the fixed order
name-length, email-shape, password-length, confirmation-match,
email-uniqueness; the first failing rule short-circuits with its specific
message and leaves the state unchanged (no store write); when all five rules
pass, exactly one new record is appended, success is reported, and the
session is untouched (no auto-authentication). -/
theorem register_check_order (st : AppState) (n e p c : JStr) :
    ((safeTrim n).length < 2 →
      registerStep st n e p c = (st, .err (js "Name must be at least 2 characters."))) ∧
    (2 ≤ (safeTrim n).length → validateEmail (toLowerStr (safeTrim e)) = false →
      registerStep st n e p c = (st, .err (js "Please enter a valid email."))) ∧
    (2 ≤ (safeTrim n).length → validateEmail (toLowerStr (safeTrim e)) = true →
      (safeTrim p).length < 4 →
      registerStep st n e p c = (st, .err (js "Password must be at least 4 characters."))) ∧
    (2 ≤ (safeTrim n).length → validateEmail (toLowerStr (safeTrim e)) = true →
      4 ≤ (safeTrim p).length → safeTrim p ≠ safeTrim c →
      registerStep st n e p c = (st, .err (js "Passwords do not match."))) ∧
    (2 ≤ (safeTrim n).length → validateEmail (toLowerStr (safeTrim e)) = true →
      4 ≤ (safeTrim p).length → safeTrim p = safeTrim c →
      (st.users.any fun u => u.email == toLowerStr (safeTrim e)) = true →
      registerStep st n e p c =
        (st, .err (js "An account with this email already exists."))) ∧
    (2 ≤ (safeTrim n).length → validateEmail (toLowerStr (safeTrim e)) = true →
      4 ≤ (safeTrim p).length → safeTrim p = safeTrim c →
      (st.users.any fun u => u.email == toLowerStr (safeTrim e)) = false →
      registerStep st n e p c =
        (⟨st.users ++ [⟨safeTrim n, toLowerStr (safeTrim e), safeTrim p⟩], st.session⟩,
         .ok (js "Registration successful. You can now log in."))) := by
  refine ⟨?_, ?_, ?_, ?_, ?_, ?_⟩ <;> intros <;>
    unfold registerStep register <;> dsimp only
  · rw [if_pos (by omega)]
  · rw [if_neg (by omega), if_pos (by simp_all)]
  · rw [if_neg (by omega), if_neg (by simp_all), if_pos (by omega)]
  · rw [if_neg (by omega), if_neg (by simp_all), if_neg (by omega),
      if_pos (by assumption)]
  · rw [if_neg (by omega), if_neg (by simp_all), if_neg (by omega),
      if_neg (by simp_all), if_pos (by assumption)]
  · rw [if_neg (by omega), if_neg (by simp_all), if_neg (by omega),
      if_neg (by simp_all), if_neg (by simp_all)]

/-- C8 witness: each of the six branches of the order theorem instantiated
at a concrete input on a one-record store. -/
theorem register_check_order_witness :
    (registerStep ⟨[⟨js "Jane Doe", js "jane@x.com", js "abcd"⟩], none⟩
        (js "B") (js "b@y.com") (js "abcd") (js "abcd") =
      (⟨[⟨js "Jane Doe", js "jane@x.com", js "abcd"⟩], none⟩,
       .err (js "Name must be at least 2 characters."))) ∧
    (registerStep ⟨[⟨js "Jane Doe", js "jane@x.com", js "abcd"⟩], none⟩
        (js "Bob") (js "not-an-email") (js "abcd") (js "abcd") =
      (⟨[⟨js "Jane Doe", js "jane@x.com", js "abcd"⟩], none⟩,
       .err (js "Please enter a valid email."))) ∧
    (registerStep ⟨[⟨js "Jane Doe", js "jane@x.com", js "abcd"⟩], none⟩
        (js "Bob") (js "b@y.com") (js "ab") (js "ab") =
      (⟨[⟨js "Jane Doe", js "jane@x.com", js "abcd"⟩], none⟩,
       .err (js "Password must be at least 4 characters."))) ∧
    (registerStep ⟨[⟨js "Jane Doe", js "jane@x.com", js "abcd"⟩], none⟩
        (js "Bob") (js "b@y.com") (js "abcd") (js "abce") =
      (⟨[⟨js "Jane Doe", js "jane@x.com", js "abcd"⟩], none⟩,
       .err (js "Passwords do not match."))) ∧
    (registerStep ⟨[⟨js "Jane Doe", js "jane@x.com", js "abcd"⟩], none⟩
        (js "Bob") (js "jane@x.com") (js "efgh") (js "efgh") =
      (⟨[⟨js "Jane Doe", js "jane@x.com", js "abcd"⟩], none⟩,
       .err (js "An account with this email already exists."))) ∧
    (registerStep ⟨[⟨js "Jane Doe", js "jane@x.com", js "abcd"⟩], none⟩
        (js "Bob") (js "b@y.com") (js "efgh") (js "efgh") =
      (⟨[⟨js "Jane Doe", js "jane@x.com", js "abcd"⟩,
         ⟨safeTrim (js "Bob"), toLowerStr (safeTrim (js "b@y.com")), safeTrim (js "efgh")⟩],
        none⟩,
       .ok (js "Registration successful. You can now log in."))) := by
  refine ⟨?_, ?_, ?_, ?_, ?_, ?_⟩
  · exact (register_check_order ⟨[⟨js "Jane Doe", js "jane@x.com", js "abcd"⟩], none⟩
      (js "B") (js "b@y.com") (js "abcd") (js "abcd")).1 (by decide)
  · exact (register_check_order ⟨[⟨js "Jane Doe", js "jane@x.com", js "abcd"⟩], none⟩
      (js "Bob") (js "not-an-email") (js "abcd") (js "abcd")).2.1 (by decide) (by decide)
  · exact (register_check_order ⟨[⟨js "Jane Doe", js "jane@x.com", js "abcd"⟩], none⟩
      (js "Bob") (js "b@y.com") (js "ab") (js "ab")).2.2.1 (by decide) (by decide) (by decide)
  · exact (register_check_order ⟨[⟨js "Jane Doe", js "jane@x.com", js "abcd"⟩], none⟩
      (js "Bob") (js "b@y.com") (js "abcd") (js "abce")).2.2.2.1
      (by decide) (by decide) (by decide) (by decide)
  · exact (register_check_order ⟨[⟨js "Jane Doe", js "jane@x.com", js "abcd"⟩], none⟩
      (js "Bob") (js "jane@x.com") (js "efgh") (js "efgh")).2.2.2.2.1
      (by decide) (by decide) (by decide) (by decide) (by decide)
  · exact (register_check_order ⟨[⟨js "Jane Doe", js "jane@x.com", js "abcd"⟩], none⟩
      (js "Bob") (js "b@y.com") (js "efgh") (js "efgh")).2.2.2.2.2
      (by decide) (by decide) (by decide) (by decide) (by decide)

/-- A stored record in normalized form: name and password are their own
trimmed forms with the minimum lengths, and the email is its own
trimmed-lowercased form. -/
def normalizedRec (u : UserRecord) : Prop :=
  u.name = jsTrim u.name ∧ 2 ≤ u.name.length ∧
  u.password = jsTrim u.password ∧ 4 ≤ u.password.length ∧
  u.email = toLowerStr (jsTrim u.email)

/-- Inversion of a successful profile update. -/
theorem updateProfile_ok_iff {users : List UserRecord} {sEmail n p : JStr}
    {us' : List UserRecord} :
    updateProfile users sEmail n p = .ok us' ↔
      2 ≤ (safeTrim n).length ∧ 4 ≤ (safeTrim p).length ∧
      ∃ idx, findIndex (fun u => u.email == sEmail) users = some idx ∧
        us' = users.set idx { users.getD idx ⟨[], [], []⟩ with
          name := safeTrim n, password := safeTrim p } := by
  unfold updateProfile
  dsimp only
  split_ifs with h1 h2
  · refine iff_of_false (by simp) ?_
    rintro ⟨ha, -⟩
    omega
  · refine iff_of_false (by simp) ?_
    rintro ⟨-, hb, -⟩
    omega
  · cases hf : findIndex (fun u => u.email == sEmail) users with
    | none =>
      refine iff_of_false (by simp) ?_
      rintro ⟨-, -, idx, hidx, -⟩
      exact Option.noConfusion hidx
    | some idx =>
      simp only [OpResult.ok.injEq]
      constructor
      · intro h
        exact ⟨by omega, by omega, idx, rfl, h.symm⟩
      · rintro ⟨-, -, j, hj, hus⟩
        injection hj with hj
        rw [hus, hj]

/-- C10: every record written by `Register` or by a successful
`UpdateProfile` is normalized; hence both operations preserve the invariant
that every stored record is normalized, so it holds in any store populated
only through them. -/
theorem ops_preserve_normalized :
    (∀ (users us' : List UserRecord) (n e p c : JStr),
      register users n e p c = .ok us' →
      (∀ u ∈ users, normalizedRec u) → ∀ u ∈ us', normalizedRec u) ∧
    (∀ (users us' : List UserRecord) (sEmail n p : JStr),
      updateProfile users sEmail n p = .ok us' →
      (∀ u ∈ users, normalizedRec u) → ∀ u ∈ us', normalizedRec u) := by
  constructor
  · intro users us' n e p c hreg hinv u hu
    obtain ⟨hn, -, hp, -, -, hus⟩ := register_ok_iff.mp hreg
    rw [hus] at hu
    rcases List.mem_append.mp hu with hu | hu
    · exact hinv u hu
    · rcases List.mem_singleton.mp hu with rfl
      exact ⟨(jsTrim_idem n).symm, hn, (jsTrim_idem p).symm, hp, (emailNorm_fixed e).symm⟩
  · intro users us' sEmail n p hup hinv u hu
    obtain ⟨hn, hp, idx, hidx, hus⟩ := updateProfile_ok_iff.mp hup
    rw [hus] at hu
    rcases List.mem_or_eq_of_mem_set hu with hu | rfl
    · exact hinv u hu
    · have hlt := findIndex_some_lt hidx
      have hmem : users.getD idx ⟨[], [], []⟩ ∈ users := by
        rw [List.getD_eq_getElem?_getD, List.getElem?_eq_getElem hlt]
        exact List.getElem_mem hlt
      obtain ⟨-, -, -, -, hemail⟩ := hinv _ hmem
      exact ⟨(jsTrim_idem n).symm, hn, (jsTrim_idem p).symm, hp, hemail⟩

/-- C10 witness: registering Jane on an empty store and then updating her
profile yields, by the two preservation statements, a normalized record. -/
theorem ops_preserve_normalized_witness :
    normalizedRec ⟨js "Janet Doe", js "jane@x.com", js "wxyz"⟩ := by
  have h1 := ops_preserve_normalized.1 [] [⟨js "Jane Doe", js "jane@x.com", js "abcd"⟩]
    (js "Jane Doe") (js "jane@x.com") (js "abcd") (js "abcd") (by decide)
    (fun u hu => absurd hu (List.not_mem_nil u))
  have h2 := ops_preserve_normalized.2 [⟨js "Jane Doe", js "jane@x.com", js "abcd"⟩]
    [⟨js "Janet Doe", js "jane@x.com", js "wxyz"⟩]
    (js "jane@x.com") (js "Janet Doe") (js "wxyz") (by decide) h1
  exact h2 _ (List.mem_singleton.mpr rfl)

/-! ## JSON layer: the raw `app.users` / `app.session` records

`localStorage.getItem` yields `Option JStr` (`none` = absent key).
`JSON.parse` / `JSON.stringify` are modelled below; JSON numbers are
modelled as integers (fractional and exponent literals — which no record
this application ever writes — are treated as unparsable). -/

/-- A JSON value. -/
inductive Json where
  | null
  | bool (b : Bool)
  | num (n : Int)
  | str (s : JStr)
  | arr (items : List Json)
  | obj (members : List (JStr × Json))

/-- Lower-case hex digit for `n < 16`. -/
def hexDig (n : Nat) : Char :=
  if n < 10 then Char.ofNat (48 + n) else Char.ofNat (87 + n)

/-- JSON string escaping as performed by `JSON.stringify`. -/
def escChar (c : Char) : JStr :=
  if c = '"' then ['\\', '"']
  else if c = '\\' then ['\\', '\\']
  else if c = '\x08' then ['\\', 'b']
  else if c = '\x09' then ['\\', 't']
  else if c = '\x0a' then ['\\', 'n']
  else if c = '\x0c' then ['\\', 'f']
  else if c = '\x0d' then ['\\', 'r']
  else if c.toNat < 32 then
    ['\\', 'u', '0', '0', hexDig (c.toNat / 16), hexDig (c.toNat % 16)]
  else [c]

def escapeStr (s : JStr) : JStr := s.foldr (fun c acc => escChar c ++ acc) []

/-- A serialized JSON string literal. -/
def serStr (s : JStr) : JStr := '"' :: (escapeStr s ++ ['"'])

mutual

/-- `JSON.stringify` (compact form, insertion-ordered keys). -/
def stringifyJson : Json → JStr
  | .null => js "null"
  | .bool true => js "true"
  | .bool false => js "false"
  | .num n => (toString n).toList
  | .str s => serStr s
  | .arr items => '[' :: (stringifyItems items ++ [']'])
  | .obj members => '{' :: (stringifyMembers members ++ ['}'])

def stringifyItems : List Json → JStr
  | [] => []
  | [j] => stringifyJson j
  | j :: rest => stringifyJson j ++ ',' :: stringifyItems rest

def stringifyMembers : List (JStr × Json) → JStr
  | [] => []
  | [(k, v)] => serStr k ++ ':' :: stringifyJson v
  | (k, v) :: rest => serStr k ++ ':' :: stringifyJson v ++ ',' :: stringifyMembers rest

end

/-- JSON inter-token whitespace. -/
def jsonWsChar (c : Char) : Bool := c = ' ' || c = '\t' || c = '\n' || c = '\r'

def skipWs (s : JStr) : JStr := s.dropWhile jsonWsChar

def hexVal (c : Char) : Option Nat :=
  if 48 ≤ c.toNat ∧ c.toNat ≤ 57 then some (c.toNat - 48)
  else if 97 ≤ c.toNat ∧ c.toNat ≤ 102 then some (c.toNat - 87)
  else if 65 ≤ c.toNat ∧ c.toNat ≤ 70 then some (c.toNat - 55)
  else none

/-- Parse the remainder of a JSON string literal (after the opening quote),
returning the decoded string and the remaining input. -/
def parseStr : JStr → Option (JStr × JStr)
  | [] => none
  | c :: cs =>
    if c = '"' then some ([], cs)
    else if c = '\\' then
      match cs with
      | [] => none
      | e :: cs' =>
        if e = '"' then (parseStr cs').map (fun p => ('"' :: p.1, p.2))
        else if e = '\\' then (parseStr cs').map (fun p => ('\\' :: p.1, p.2))
        else if e = '/' then (parseStr cs').map (fun p => ('/' :: p.1, p.2))
        else if e = 'b' then (parseStr cs').map (fun p => ('\x08' :: p.1, p.2))
        else if e = 't' then (parseStr cs').map (fun p => ('\x09' :: p.1, p.2))
        else if e = 'n' then (parseStr cs').map (fun p => ('\x0a' :: p.1, p.2))
        else if e = 'f' then (parseStr cs').map (fun p => ('\x0c' :: p.1, p.2))
        else if e = 'r' then (parseStr cs').map (fun p => ('\x0d' :: p.1, p.2))
        else if e = 'u' then
          match cs' with
          | d1 :: d2 :: d3 :: d4 :: cs'' =>
            match hexVal d1, hexVal d2, hexVal d3, hexVal d4 with
            | some v1, some v2, some v3, some v4 =>
              (parseStr cs'').map (fun p =>
                (Char.ofNat (v1 * 4096 + v2 * 256 + v3 * 16 + v4) :: p.1, p.2))
            | _, _, _, _ => none
          | _ => none
        else none
    else if c.toNat < 32 then none
    else (parseStr cs).map (fun p => (c :: p.1, p.2))

def digitsToNat (ds : JStr) : Nat := ds.foldl (fun a c => a * 10 + (c.toNat - 48)) 0

/-- Parse an unsigned JSON integer (no leading zeros). -/
def parseNatJson (cs : JStr) : Option (Nat × JStr) :=
  let ds := cs.takeWhile Char.isDigit
  if ds.isEmpty then none
  else if ds.head? = some '0' ∧ 1 < ds.length then none
  else some (digitsToNat ds, cs.dropWhile Char.isDigit)

def parseNum (cs : JStr) : Option (Json × JStr) :=
  match cs with
  | '-' :: rest => (parseNatJson rest).map (fun p => (.num (-(p.1 : Int)), p.2))
  | _ => (parseNatJson cs).map (fun p => (.num (p.1 : Int), p.2))

mutual

/-- Fuel-driven recursive-descent JSON value parser. -/
def parseVal : Nat → JStr → Option (Json × JStr)
  | 0, _ => none
  | fuel + 1, cs =>
    match skipWs cs with
    | [] => none
    | c :: rest =>
      if c = 'n' then
        match rest with
        | 'u' :: 'l' :: 'l' :: rest' => some (.null, rest')
        | _ => none
      else if c = 't' then
        match rest with
        | 'r' :: 'u' :: 'e' :: rest' => some (.bool true, rest')
        | _ => none
      else if c = 'f' then
        match rest with
        | 'a' :: 'l' :: 's' :: 'e' :: rest' => some (.bool false, rest')
        | _ => none
      else if c = '"' then
        (parseStr rest).map (fun p => (.str p.1, p.2))
      else if c = '[' then
        match skipWs rest with
        | ']' :: rest' => some (.arr [], rest')
        | cs' => (parseItems fuel cs').map (fun p => (.arr p.1, p.2))
      else if c = '{' then
        match skipWs rest with
        | '}' :: rest' => some (.obj [], rest')
        | cs' => (parseMembers fuel cs').map (fun p => (.obj p.1, p.2))
      else if c = '-' ∨ c.isDigit then parseNum (c :: rest)
      else none
termination_by structural fuel => fuel

/-- Parse the non-empty comma-separated items of an array up to `]`. -/
def parseItems : Nat → JStr → Option (List Json × JStr)
  | 0, _ => none
  | fuel + 1, cs =>
    match parseVal fuel cs with
    | none => none
    | some (j, rest) =>
      match skipWs rest with
      | ',' :: rest' => (parseItems fuel rest').map (fun p => (j :: p.1, p.2))
      | ']' :: rest' => some ([j], rest')
      | _ => none
termination_by structural fuel => fuel

/-- Parse the non-empty comma-separated members of an object up to `}`. -/
def parseMembers : Nat → JStr → Option (List (JStr × Json) × JStr)
  | 0, _ => none
  | fuel + 1, cs =>
    match skipWs cs with
    | '"' :: rest =>
      match parseStr rest with
      | none => none
      | some (k, rest₁) =>
        match skipWs rest₁ with
        | ':' :: rest₂ =>
          match parseVal fuel rest₂ with
          | none => none
          | some (v, rest₃) =>
            match skipWs rest₃ with
            | ',' :: rest₄ => (parseMembers fuel rest₄).map (fun p => ((k, v) :: p.1, p.2))
            | '}' :: rest₄ => some ([(k, v)], rest₄)
            | _ => none
        | _ => none
    | _ => none
termination_by structural fuel => fuel

end

/-- `JSON.parse`: parse one value and require only whitespace after it.
The fuel `2 * length + 2` dominates the recursion depth for any input the
application stores. -/
def jsonParse (s : JStr) : Option Json :=
  match parseVal (2 * s.length + 2) s with
  | some (j, rest) => if (skipWs rest).isEmpty then some j else none
  | none => none

/-- `readUsers` from `src/app.js`: `[]` on an absent or empty raw value
(`if (!raw) return []`), on a parse failure (the `catch`), and on a parsed
value that is not an array (`if (!Array.isArray(data)) return []`). -/
def readUsersRaw (raw : Option JStr) : List Json :=
  match raw with
  | none => []
  | some s =>
    if s.isEmpty then []
    else
      match jsonParse s with
      | none => []
      | some (Json.arr items) => items
      | some _ => []

/-- `writeUsers` from `src/app.js`:
`localStorage.setItem(KEY, JSON.stringify(users))`. -/
def writeUsersRaw (items : List Json) : Option JStr :=
  some (stringifyJson (.arr items))

/-- The raw value of the users record after `writeUsers(readUsers())`. -/
def roundTripUsers (raw : Option JStr) : Option JStr :=
  writeUsersRaw (readUsersRaw raw)

/-- `readSession` from `src/app.js`: `null` on an absent or empty raw value
or a parse failure; otherwise whatever JSON value is stored. -/
def readSessionRaw (raw : Option JStr) : Option Json :=
  match raw with
  | none => none
  | some s => if s.isEmpty then none else jsonParse s

/-- The JSON object `{name, email, password}` a user record serializes to. -/
def recordToJson (u : UserRecord) : Json :=
  .obj [(js "name", .str u.name), (js "email", .str u.email), (js "password", .str u.password)]

/-- The raw serialization of a stored user list. -/
def serUsers (l : List UserRecord) : JStr := stringifyJson (.arr (l.map recordToJson))

/-! ## Parse/stringify round-trip for stored user lists -/

theorem hexVal_hexDig : ∀ n < 16, hexVal (hexDig n) = some n := by decide

theorem skipWs_cons {c : Char} {cs : JStr} (h : jsonWsChar c = false) :
    skipWs (c :: cs) = c :: cs := by
  simp [skipWs, List.dropWhile_cons, h]

theorem escapeStr_cons (c : Char) (t : JStr) :
    escapeStr (c :: t) = escChar c ++ escapeStr t := rfl

theorem parseStr_round (s : JStr) : ∀ rest : JStr,
    parseStr (escapeStr s ++ '"' :: rest) = some (s, rest) := by
  induction s with
  | nil =>
    intro rest
    rw [show escapeStr [] = [] from rfl, List.nil_append]
    unfold parseStr
    simp
  | cons c t ih =>
    intro rest
    rw [escapeStr_cons, List.append_assoc]
    by_cases h1 : c = '"'
    · subst h1
      rw [show escChar '"' = ['\\', '"'] from rfl]
      simp only [List.cons_append, List.nil_append]
      unfold parseStr
      simp [ih]
    · by_cases h2 : c = '\\'
      · subst h2
        rw [show escChar '\\' = ['\\', '\\'] from rfl]
        simp only [List.cons_append, List.nil_append]
        unfold parseStr
        simp [ih]
      · by_cases h3 : c = '\x08'
        · subst h3
          rw [show escChar '\x08' = ['\\', 'b'] from rfl]
          simp only [List.cons_append, List.nil_append]
          unfold parseStr
          simp [ih]
        · by_cases h4 : c = '\x09'
          · subst h4
            rw [show escChar '\x09' = ['\\', 't'] from rfl]
            simp only [List.cons_append, List.nil_append]
            unfold parseStr
            simp [ih]
          · by_cases h5 : c = '\x0a'
            · subst h5
              rw [show escChar '\x0a' = ['\\', 'n'] from rfl]
              simp only [List.cons_append, List.nil_append]
              unfold parseStr
              simp [ih]
            · by_cases h6 : c = '\x0c'
              · subst h6
                rw [show escChar '\x0c' = ['\\', 'f'] from rfl]
                simp only [List.cons_append, List.nil_append]
                unfold parseStr
                simp [ih]
              · by_cases h7 : c = '\x0d'
                · subst h7
                  rw [show escChar '\x0d' = ['\\', 'r'] from rfl]
                  simp only [List.cons_append, List.nil_append]
                  unfold parseStr
                  simp [ih]
                · by_cases h8 : c.toNat < 32
                  · have hesc : escChar c =
                        ['\\', 'u', '0', '0', hexDig (c.toNat / 16), hexDig (c.toNat % 16)] := by
                      simp [escChar, h1, h2, h3, h4, h5, h6, h7, h8]
                    have hv0 : hexVal '0' = some 0 := rfl
                    have hv3 : hexVal (hexDig (c.toNat / 16)) = some (c.toNat / 16) :=
                      hexVal_hexDig _ (by omega)
                    have hv4 : hexVal (hexDig (c.toNat % 16)) = some (c.toNat % 16) :=
                      hexVal_hexDig _ (by omega)
                    have harith : c.toNat / 16 * 16 + c.toNat % 16 = c.toNat := by omega
                    rw [hesc]
                    simp only [List.cons_append, List.nil_append]
                    unfold parseStr
                    simp [hv0, hv3, hv4, ih, harith, Char.ofNat_toNat]
                  · have hesc : escChar c = [c] := by
                      simp [escChar, h1, h2, h3, h4, h5, h6, h7, h8]
                    rw [hesc]
                    simp only [List.cons_append, List.nil_append]
                    unfold parseStr
                    simp [h1, h2, h8, ih]

theorem serStr_append (s X : JStr) : serStr s ++ X = '"' :: (escapeStr s ++ '"' :: X) := by
  simp [serStr]

/-- Parsing a serialized string literal as a JSON value. -/
theorem parseVal_str (f : Nat) (v rest : JStr) :
    parseVal (f + 1) (serStr v ++ rest) = some (.str v, rest) := by
  have w1 : ∀ X : JStr, skipWs ('"' :: X) = '"' :: X := fun X => skipWs_cons (by decide)
  rw [serStr_append]
  conv_lhs => rw [parseVal]
  simp [w1, parseStr_round]

/-- Parsing one final `"k":"v"` member followed by `}`. -/
theorem parseMembers_last (f : Nat) (k v rest : JStr) :
    parseMembers (f + 2) (serStr k ++ ':' :: (serStr v ++ '}' :: rest)) =
      some ([(k, Json.str v)], rest) := by
  have w1 : ∀ X : JStr, skipWs ('"' :: X) = '"' :: X := fun X => skipWs_cons (by decide)
  have w2 : ∀ X : JStr, skipWs (':' :: X) = ':' :: X := fun X => skipWs_cons (by decide)
  have w4 : ∀ X : JStr, skipWs ('}' :: X) = '}' :: X := fun X => skipWs_cons (by decide)
  rw [serStr_append]
  conv_lhs => rw [parseMembers]
  simp [w1, w2, w4, parseStr_round, parseVal_str]

/-- Parsing one `"k":"v"` member followed by `,` and more members. -/
theorem parseMembers_cons (f : Nat) (k v more : JStr) :
    parseMembers (f + 2) (serStr k ++ ':' :: (serStr v ++ ',' :: more)) =
      (parseMembers (f + 1) more).map (fun p => ((k, Json.str v) :: p.1, p.2)) := by
  have w1 : ∀ X : JStr, skipWs ('"' :: X) = '"' :: X := fun X => skipWs_cons (by decide)
  have w2 : ∀ X : JStr, skipWs (':' :: X) = ':' :: X := fun X => skipWs_cons (by decide)
  have w3 : ∀ X : JStr, skipWs (',' :: X) = ',' :: X := fun X => skipWs_cons (by decide)
  rw [serStr_append]
  conv_lhs => rw [parseMembers]
  simp [w1, w2, w3, parseStr_round, parseVal_str]

/-- The member list of a serialized user record. -/
def recordMembers (u : UserRecord) : List (JStr × Json) :=
  [(js "name", Json.str u.name), (js "email", Json.str u.email),
   (js "password", Json.str u.password)]

theorem recordToJson_eq (u : UserRecord) : recordToJson u = .obj (recordMembers u) := rfl

theorem parseMembers_record (f : Nat) (u : UserRecord) (rest : JStr) :
    parseMembers (f + 4) (stringifyMembers (recordMembers u) ++ '}' :: rest) =
      some (recordMembers u, rest) := by
  have hshape : stringifyMembers (recordMembers u) ++ '}' :: rest =
      serStr (js "name") ++ ':' :: (serStr u.name ++ ',' ::
        (serStr (js "email") ++ ':' :: (serStr u.email ++ ',' ::
          (serStr (js "password") ++ ':' :: (serStr u.password ++ '}' :: rest))))) := by
    simp [stringifyMembers, recordMembers, stringifyJson]
  rw [hshape]
  rw [show f + 4 = f + 2 + 2 from rfl, parseMembers_cons]
  rw [show f + 2 + 1 = f + 1 + 2 from rfl, parseMembers_cons]
  rw [show f + 1 + 1 = f + 2 from rfl, parseMembers_last]
  simp [recordMembers]

/-- Parsing a serialized nonempty object. -/
theorem parseVal_obj (f : Nat) (ms : List (JStr × Json)) (rest T : JStr)
    (hT : stringifyMembers ms = '"' :: T)
    (hparse : parseMembers f (stringifyMembers ms ++ '}' :: rest) = some (ms, rest)) :
    parseVal (f + 1) (stringifyJson (.obj ms) ++ rest) = some (.obj ms, rest) := by
  have w1 : ∀ X : JStr, skipWs ('"' :: X) = '"' :: X := fun X => skipWs_cons (by decide)
  have w5 : ∀ X : JStr, skipWs ('{' :: X) = '{' :: X := fun X => skipWs_cons (by decide)
  have hser : stringifyJson (.obj ms) ++ rest = '{' :: (stringifyMembers ms ++ '}' :: rest) := by
    simp [stringifyJson]
  rw [hser]
  conv_lhs => rw [parseVal]
  rw [hT] at hparse ⊢
  simp only [List.cons_append] at hparse ⊢
  simp [w1, w5, hparse]

theorem stringifyMembers_record_shape (u : UserRecord) :
    stringifyMembers (recordMembers u) =
      serStr (js "name") ++ ':' :: (serStr u.name ++ ',' ::
        (serStr (js "email") ++ ':' :: (serStr u.email ++ ',' ::
          (serStr (js "password") ++ ':' :: serStr u.password)))) := by
  simp [stringifyMembers, recordMembers, stringifyJson]

theorem parseVal_record (f : Nat) (u : UserRecord) (rest : JStr) :
    parseVal (f + 5) (stringifyJson (recordToJson u) ++ rest) = some (recordToJson u, rest) := by
  obtain ⟨T, hT⟩ : ∃ T, stringifyMembers (recordMembers u) = '"' :: T :=
    ⟨_, by rw [stringifyMembers_record_shape, serStr_append]⟩
  rw [recordToJson_eq]
  exact parseVal_obj (f + 4) (recordMembers u) rest T hT (parseMembers_record f u rest)

theorem parseItems_records (us : List UserRecord) : ∀ (u : UserRecord) (rest : JStr) (e : Nat),
    parseItems (2 * us.length + 6 + e)
      (stringifyItems ((u :: us).map recordToJson) ++ ']' :: rest) =
      some ((u :: us).map recordToJson, rest) := by
  induction us with
  | nil =>
    intro u rest e
    have w6 : ∀ X : JStr, skipWs (']' :: X) = ']' :: X := fun X => skipWs_cons (by decide)
    rw [show stringifyItems (([u] : List UserRecord).map recordToJson) =
      stringifyJson (recordToJson u) from by simp [stringifyItems]]
    rw [show 2 * ([] : List UserRecord).length + 6 + e = (e + 5) + 1 from by simp; omega]
    conv_lhs => rw [parseItems]
    simp [show ∀ rest', parseVal (e + 5) (stringifyJson (recordToJson u) ++ rest') =
      some (recordToJson u, rest') from fun rest' => parseVal_record e u rest', w6]
  | cons v vs ih =>
    intro u rest e
    have w3 : ∀ X : JStr, skipWs (',' :: X) = ',' :: X := fun X => skipWs_cons (by decide)
    rw [show stringifyItems (((u :: v :: vs) : List UserRecord).map recordToJson) =
      stringifyJson (recordToJson u) ++ ',' :: stringifyItems ((v :: vs).map recordToJson)
      from by simp [stringifyItems]]
    rw [show 2 * ((v :: vs) : List UserRecord).length + 6 + e =
      (2 * vs.length + 7 + e) + 1 from by simp; omega]
    conv_lhs => rw [parseItems]
    simp only [List.append_assoc, List.cons_append]
    rw [show 2 * vs.length + 7 + e = (2 * vs.length + 2 + e) + 5 from by omega]
    rw [parseVal_record (2 * vs.length + 2 + e) u]
    rw [show (2 * vs.length + 2 + e) + 5 = 2 * vs.length + 6 + (e + 1) from by omega]
    have h := ih v rest (e + 1)
    simp only [List.map_cons] at h
    simp [w3, h]

theorem stringifyItems_records_len (us : List UserRecord) : ∀ u : UserRecord,
    us.length + 1 ≤ (stringifyItems ((u :: us).map recordToJson)).length := by
  induction us with
  | nil =>
    intro u
    rw [show stringifyItems (([u] : List UserRecord).map recordToJson) =
      stringifyJson (recordToJson u) from by simp [stringifyItems]]
    rw [show stringifyJson (recordToJson u) =
      '{' :: (stringifyMembers (recordMembers u) ++ ['}']) from by
      simp [recordToJson_eq, stringifyJson]]
    simp
  | cons v vs ih =>
    intro u
    rw [show stringifyItems (((u :: v :: vs) : List UserRecord).map recordToJson) =
      stringifyJson (recordToJson u) ++ ',' :: stringifyItems ((v :: vs).map recordToJson)
      from by simp [stringifyItems]]
    have h := ih v
    simp only [List.length_append, List.length_cons]
    simp only [List.length_cons] at h ⊢
    omega

theorem stringifyJson_record_head (u : UserRecord) :
    stringifyJson (recordToJson u) = '{' :: (stringifyMembers (recordMembers u) ++ ['}']) := by
  simp [recordToJson_eq, stringifyJson]

/-- Parsing a serialized nonempty array whose serialized items start with
an object brace. -/
theorem parseVal_arr (f : Nat) (items : List Json) (rest Y : JStr)
    (hY : stringifyItems items = '{' :: Y)
    (hparse : parseItems f (stringifyItems items ++ ']' :: rest) = some (items, rest)) :
    parseVal (f + 1) (stringifyJson (.arr items) ++ rest) = some (.arr items, rest) := by
  have w7 : ∀ X : JStr, skipWs ('[' :: X) = '[' :: X := fun X => skipWs_cons (by decide)
  have w5 : ∀ X : JStr, skipWs ('{' :: X) = '{' :: X := fun X => skipWs_cons (by decide)
  have hser : stringifyJson (.arr items) ++ rest =
      '[' :: (stringifyItems items ++ ']' :: rest) := by
    simp [stringifyJson]
  rw [hser]
  conv_lhs => rw [parseVal]
  rw [hY] at hparse ⊢
  simp only [List.cons_append] at hparse ⊢
  simp [w7, w5, hparse]

/-- C6 key fact: the serialization of any stored user list parses back to
exactly that list of record objects. -/
theorem jsonParse_serUsers (l : List UserRecord) :
    jsonParse (serUsers l) = some (.arr (l.map recordToJson)) := by
  cases l with
  | nil => rfl
  | cons u us =>
    obtain ⟨Y, hY⟩ : ∃ Y, stringifyItems ((u :: us).map recordToJson) = '{' :: Y := by
      cases us with
      | nil =>
        refine ⟨stringifyMembers (recordMembers u) ++ ['}'], ?_⟩
        rw [show stringifyItems (([u] : List UserRecord).map recordToJson) =
          stringifyJson (recordToJson u) from by simp [stringifyItems],
          stringifyJson_record_head]
      | cons v vs =>
        refine ⟨(stringifyMembers (recordMembers u) ++ ['}']) ++
          ',' :: stringifyItems ((v :: vs).map recordToJson), ?_⟩
        rw [show stringifyItems (((u :: v :: vs) : List UserRecord).map recordToJson) =
          stringifyJson (recordToJson u) ++ ',' :: stringifyItems ((v :: vs).map recordToJson)
          from by simp [stringifyItems], stringifyJson_record_head]
        simp
    have hlen := stringifyItems_records_len us u
    have hslen : (serUsers (u :: us)).length =
        (stringifyItems ((u :: us).map recordToJson)).length + 2 := by
      rw [show serUsers (u :: us) =
        '[' :: (stringifyItems ((u :: us).map recordToJson) ++ [']']) from by
        simp [serUsers, stringifyJson]]
      simp
    obtain ⟨e, he⟩ : ∃ e, 2 * (serUsers (u :: us)).length + 2 =
        (2 * us.length + 6 + e) + 1 :=
      ⟨2 * (serUsers (u :: us)).length - 2 * us.length - 5, by rw [hslen]; omega⟩
    have hitems : parseItems (2 * us.length + 6 + e)
        (stringifyItems ((u :: us).map recordToJson) ++ ']' :: []) =
        some ((u :: us).map recordToJson, []) := parseItems_records us u [] e
    have hpv := parseVal_arr (2 * us.length + 6 + e) ((u :: us).map recordToJson) [] Y hY hitems
    unfold jsonParse
    rw [he]
    rw [show serUsers (u :: us) =
      stringifyJson (.arr ((u :: us).map recordToJson)) ++ [] from by simp [serUsers]]
    rw [hpv]
    rfl

/-- C6 counterexample: `writeUsers(readUsers())` does not leave the store's
users record unchanged in general: on a store where the record is absent it
creates the record `"[]"`, and on a record holding `"[ ]"` it rewrites it to
`"[]"`. -/
theorem roundTrip_counterexample :
    roundTripUsers none = some (js "[]") ∧ some (js "[]") ≠ none ∧
    roundTripUsers (some (js "[ ]")) = some (js "[]") ∧ js "[]" ≠ js "[ ]" := by
  refine ⟨by decide, by decide, by decide, by decide⟩

/-- C6 (amended): `writeUsers(readUsers())` leaves the users record unchanged
whenever it already holds the serialization of a list of user records (in
particular after any `writeUsers` of such a list, so the round-trip is
idempotent); on other contents it normalizes the record to the serialization
of `readUsers()`. -/
theorem roundTrip_serUsers (l : List UserRecord) :
    roundTripUsers (some (serUsers l)) = some (serUsers l) := by
  have hne : (serUsers l).isEmpty = false := by
    rw [show serUsers l = '[' :: (stringifyItems (l.map recordToJson) ++ [']']) from by
      simp [serUsers, stringifyJson]]
    rfl
  have hread : readUsersRaw (some (serUsers l)) = l.map recordToJson := by
    simp only [readUsersRaw, hne, Bool.false_eq_true, if_false, jsonParse_serUsers]
  simp only [roundTripUsers, writeUsersRaw, hread]
  rfl

/-- C9: the storage reads never raise — in this embedding they are total
functions, with `JSON.parse` failure represented by `Option` (the source's
`try`/`catch`) — and they return the safe defaults: `readUsers` returns `[]`
when the users record is absent, unparsable, or parses to a non-array value,
and `readSession` returns `null` when the session record is absent or
unparsable. -/
theorem reads_default (raw : JStr) :
    readUsersRaw none = [] ∧
    (jsonParse raw = none → readUsersRaw (some raw) = []) ∧
    (∀ j, jsonParse raw = some j → (∀ items, j ≠ .arr items) →
      readUsersRaw (some raw) = []) ∧
    readSessionRaw none = none ∧
    (jsonParse raw = none → readSessionRaw (some raw) = none) := by
  refine ⟨rfl, ?_, ?_, rfl, ?_⟩
  · intro h
    simp [readUsersRaw, h]
  · intro j hj hne
    by_cases he : raw.isEmpty
    · simp [readUsersRaw, he]
    · cases j with
      | arr items => exact absurd rfl (hne items)
      | null => simp [readUsersRaw, he, hj]
      | bool b => simp [readUsersRaw, he, hj]
      | num n => simp [readUsersRaw, he, hj]
      | str s => simp [readUsersRaw, he, hj]
      | obj ms => simp [readUsersRaw, he, hj]
  · intro h
    simp [readSessionRaw, h]

/-- C9 witness: concrete corrupt and wrong-shape store contents. -/
theorem reads_default_witness :
    readUsersRaw (some (js "not json")) = [] ∧
    readSessionRaw (some (js "not json")) = none ∧
    readUsersRaw (some (js "42")) = [] := by
  have h1 := reads_default (js "not json")
  have h2 := reads_default (js "42")
  exact ⟨h1.2.1 rfl, h1.2.2.2.2 rfl,
    h2.2.2.1 (.num 42) rfl (fun items hcon => Json.noConfusion hcon)⟩
